import Mathlib

/-!
Verification of the client-side envelope-encryption engine of
pocket-prompt-desktop (src/core/encryption/crypto.ts).

The TypeScript module is embedded shallowly:

* Byte buffers (`Uint8Array`/`ArrayBuffer`) are `List Nat` with entries < 256.
* The WebCrypto AES-GCM primitive is modelled as an ideal authenticated
  cipher: the ciphertext is an unambiguous encoding of (key, iv, plaintext)
  repeated twice, so authentication fails exactly when key, iv or ciphertext
  bytes do not match an honest encryption.  Decryption succeeds only on exact
  matches; this captures the AEAD guarantees the code relies on.
* PBKDF2-SHA256 is modelled as an ideal (deterministic, collision-free)
  derivation function of its input material and salt; SHA-256 password
  fingerprinting is likewise modelled as an ideal injective digest.
* `TextEncoder`/`TextDecoder` are modelled as an injective code-point-to-bytes
  encoding (three bytes per code point) and its inverse.
* Base64 (`btoa`/`atob` composed with the byte conversions in the module) is
  implemented concretely; decoding rejects strings that are not valid base64.
* The module-level mutable session cache (`sessionMasterKey`,
  `currentWalletAddress`, `currentPasswordHash`, `pendingKeyDerivation`) is an
  explicit `CryptoState` threaded through every operation.  An instrumentation
  counter `kdfInvocations` counts key-derivation attempts; it is not part of
  the source state and is never read by the embedded code.
* `async`/`await` follows the single-threaded cooperative model of the
  JavaScript event loop: the entry section of `getOrCreateMasterKey` (up to
  the point where the derivation promise is published) and the derivation
  body are each atomic; interleavings can only happen at the awaits between
  them.  `getOrCreateMasterKeyEntry` and `deriveBody` embed those two atomic
  sections, and `getOrCreateMasterKey` is their run-to-completion
  composition (the semantics of a call that is not interleaved with another).
* Randomness (`crypto.getRandomValues`, `generateKey`) is passed in as
  explicit arguments, and fallibility of the WebCrypto derivation primitives
  is an explicit boolean `derivOk`.
-/

set_option maxRecDepth 20000

namespace PocketPrompt

/-- All entries of a byte buffer are actual bytes. -/
def ByteOK (l : List Nat) : Prop := ∀ b ∈ l, b < 256

instance (l : List Nat) : Decidable (ByteOK l) := by
  unfold ByteOK; infer_instance

/-! ### Base64 (btoa / atob as used by arrayBufferToBase64 / base64ToArrayBuffer) -/

/-- The base64 alphabet: sextet value to character. -/
def sextetToChar (n : Nat) : Char :=
  if n < 26 then Char.ofNat (65 + n)
  else if n < 52 then Char.ofNat (97 + (n - 26))
  else if n < 62 then Char.ofNat (48 + (n - 52))
  else if n = 62 then '+'
  else '/'

/-- The base64 alphabet: character back to sextet value; `none` for characters
outside the alphabet (atob throws on those). -/
def charToSextet (c : Char) : Option Nat :=
  if 'A' ≤ c ∧ c ≤ 'Z' then some (c.toNat - 65)
  else if 'a' ≤ c ∧ c ≤ 'z' then some (c.toNat - 97 + 26)
  else if '0' ≤ c ∧ c ≤ '9' then some (c.toNat - 48 + 52)
  else if c = '+' then some 62
  else if c = '/' then some 63
  else none

/-- Base64-encode a byte list, three bytes to four characters, with `=`
padding, as `btoa` does on the binary string built by the module. -/
def encodeChunks : List Nat → List Char
  | b0 :: b1 :: b2 :: rest =>
    let w := b0 * 65536 + b1 * 256 + b2
    sextetToChar (w / 262144) :: sextetToChar (w / 4096 % 64) ::
      sextetToChar (w / 64 % 64) :: sextetToChar (w % 64) :: encodeChunks rest
  | [b0, b1] =>
    let w := b0 * 256 + b1
    [sextetToChar (w / 1024), sextetToChar (w / 16 % 64), sextetToChar (w % 16 * 4), '=']
  | [b0] =>
    [sextetToChar (b0 / 4), sextetToChar (b0 % 4 * 16), '=', '=']
  | [] => []

/-- Base64-decode four characters at a time, honouring `=` padding only at the
very end; `none` models the exception `atob` throws on malformed input. -/
def decodeChunks : List Char → Option (List Nat)
  | c0 :: c1 :: c2 :: c3 :: rest =>
    if c2 = '=' ∧ c3 = '=' ∧ rest = [] then
      match charToSextet c0, charToSextet c1 with
      | some s0, some s1 => some [s0 * 4 + s1 / 16]
      | _, _ => none
    else if c3 = '=' ∧ rest = [] then
      match charToSextet c0, charToSextet c1, charToSextet c2 with
      | some s0, some s1, some s2 => some [s0 * 4 + s1 / 16, s1 % 16 * 16 + s2 / 4]
      | _, _, _ => none
    else
      match charToSextet c0, charToSextet c1, charToSextet c2, charToSextet c3 with
      | some s0, some s1, some s2, some s3 =>
        match decodeChunks rest with
        | some bs =>
          let w := s0 * 262144 + s1 * 4096 + s2 * 64 + s3
          some (w / 65536 :: w / 256 % 256 :: w % 256 :: bs)
        | none => none
      | _, _, _, _ => none
  | [] => some []
  | _ => none

/-- arrayBufferToBase64 (crypto.ts lines 57-64): bytes to a base64 string. -/
def arrayBufferToBase64 (buffer : List Nat) : String :=
  String.mk (encodeChunks buffer)

/-- base64ToArrayBuffer (crypto.ts lines 69-76): base64 string back to bytes;
`none` models the exception thrown by `atob` on invalid base64. -/
def base64ToArrayBuffer (base64 : String) : Option (List Nat) :=
  decodeChunks base64.data

/-! ### TextEncoder / TextDecoder model -/

/-- Fixed-width byte encoding of one code point (model of the bytes
`TextEncoder` produces for it; three bytes per code point, injective). -/
def charBytes (c : Char) : List Nat :=
  [c.toNat / 65536, c.toNat / 256 % 256, c.toNat % 256]

/-- Model of TextEncoder.encode: a string as a byte list. -/
def textEncode (s : String) : List Nat :=
  s.data.flatMap charBytes

/-- Inverse of `charBytes` on three-byte groups. -/
def decodeCodepoints : List Nat → List Char
  | b0 :: b1 :: b2 :: rest => Char.ofNat (b0 * 65536 + b1 * 256 + b2) :: decodeCodepoints rest
  | _ => []

/-- Model of TextDecoder.decode: a byte list back to a string. -/
def textDecode (l : List Nat) : String :=
  String.mk (decodeCodepoints l)

/-! ### Ideal AES-GCM -/

/-- Prefix-free encoding of a length (used to build unambiguous ciphertext
encodings in the ideal-cipher model). -/
def lenCode (n : Nat) : List Nat := List.replicate n 1 ++ [0]

/-- Unambiguous encoding of the (key, iv) pair that heads an ideal
ciphertext. -/
def aeadHeader (key iv : List Nat) : List Nat :=
  lenCode key.length ++ key ++ lenCode iv.length ++ iv

/-- Ideal-model AES-GCM encryption (crypto.subtle.encrypt with AES-GCM): the
ciphertext determines key, iv and plaintext unambiguously, and the repetition
makes every single-byte modification detectable. -/
def aesGcmEncrypt (key iv pt : List Nat) : List Nat :=
  (aeadHeader key iv ++ pt) ++ (aeadHeader key iv ++ pt)

/-- Ideal-model AES-GCM decryption (crypto.subtle.decrypt with AES-GCM):
succeeds exactly on honest ciphertexts for the same key and iv; `none` models
the AEAD authentication failure exception. -/
def aesGcmDecrypt (key iv ct : List Nat) : Option (List Nat) :=
  if ct.length % 2 = 0 ∧ ct.drop (ct.length / 2) = ct.take (ct.length / 2) ∧
      (ct.take (ct.length / 2)).take (aeadHeader key iv).length = aeadHeader key iv then
    some ((ct.take (ct.length / 2)).drop (aeadHeader key iv).length)
  else
    none

/-! ### Hashing and key derivation -/

/-- PROTOCOL_VERSION (crypto.ts line 13). -/
def PROTOCOL_VERSION : String := "Pocket-Prompt-v3.5"

/-- Model of String.prototype.toLowerCase (ASCII range, as used here). -/
def jsToLower (s : String) : String := String.mk (s.data.map Char.toLower)

/-- hashPassword (crypto.ts lines 81-86): ideal model of the SHA-256 + base64
password fingerprint used only for cache verification; modelled as an
injective digest. -/
def hashPassword (password : String) : String := "sha256:" ++ password

/-- Ideal model of PBKDF2-SHA256 with 250000 iterations
(crypto.subtle.deriveKey in crypto.ts lines 160-174): deterministic in, and
distinguishing, its key material and salt. -/
def pbkdf2Derive (input salt : List Nat) : List Nat :=
  lenCode salt.length ++ salt ++ input

/-- The master key the derivation body computes for a wallet address and a
password (crypto.ts lines 143-174): PBKDF2 over "address:password" with the
lower-cased protocol version as salt. -/
def masterKeyFor (address password : String) : List Nat :=
  pbkdf2Derive (textEncode (address ++ ":" ++ password)) (textEncode (jsToLower PROTOCOL_VERSION))

/-! ### JavaScript values (for the structural isEncrypted check) -/

/-- The fragment of JavaScript runtime values the structural checks look at. -/
inductive JValue where
  | jnull
  | jundefined
  | jstr (s : String)
  | jbool (b : Bool)
  | jobj (fields : List (String × JValue))

/-- JavaScript truthiness for the modelled values. -/
def truthy : JValue → Bool
  | .jnull => false
  | .jundefined => false
  | .jstr s => s ≠ ""
  | .jbool b => b
  | .jobj _ => true

/-- Property access `v[name]`; `undefined` when absent or not an object. -/
def getField (v : JValue) (name : String) : JValue :=
  match v with
  | .jobj fields =>
    match fields.find? (fun kv => kv.1 = name) with
    | some kv => kv.2
    | none => .jundefined
  | _ => .jundefined

/-- Strict equality with the literal `true` (the `data.isEncrypted === true`
test). -/
def isJTrue : JValue → Bool
  | .jbool true => true
  | _ => false

/-- isEncrypted (crypto.ts lines 36-38): structural check
`!!(data && data.isEncrypted === true && data.encryptedContent &&
data.encryptedKey && data.iv)`. -/
def isEncrypted (data : JValue) : Bool :=
  truthy data && isJTrue (getField data "isEncrypted") &&
    truthy (getField data "encryptedContent") &&
    truthy (getField data "encryptedKey") &&
    truthy (getField data "iv")

/-! ### Envelope and session state -/

/-- EncryptedData (crypto.ts lines 15-20); the literal field
`isEncrypted: true` is implied by the type and omitted. -/
structure EncryptedData where
  encryptedContent : String
  encryptedKey : String
  iv : String
deriving Repr, DecidableEq

/-- The runtime object an EncryptedData value is, for the structural checks. -/
def EncryptedData.toJValue (ed : EncryptedData) : JValue :=
  .jobj [("encryptedContent", .jstr ed.encryptedContent),
         ("encryptedKey", .jstr ed.encryptedKey),
         ("iv", .jstr ed.iv),
         ("isEncrypted", .jbool true)]

/-- An in-flight key derivation: the data determining what the pending
promise of crypto.ts line 31 will do when it resolves.  `ok` models whether
the underlying WebCrypto primitives succeed. -/
structure PendingDeriv where
  address : String
  password : String
  ok : Bool
deriving Repr, DecidableEq

/-- The module-level mutable state of crypto.ts lines 28-31, plus the
`kdfInvocations` instrumentation counter (counts derivation attempts; not
part of the source state, never read by the embedded code). -/
structure CryptoState where
  sessionMasterKey : Option (List Nat)
  currentWalletAddress : Option String
  currentPasswordHash : Option String
  pendingKeyDerivation : Option PendingDeriv
  kdfInvocations : Nat
deriving Repr, DecidableEq

/-- The state at module load: all four cache variables are null. -/
def initState : CryptoState :=
  { sessionMasterKey := none
    currentWalletAddress := none
    currentPasswordHash := none
    pendingKeyDerivation := none
    kdfInvocations := 0 }

/-- Errors thrown by the module.  The source throws `Error` values with
distinct messages; each constructor stands for one of them:
noWalletConnected for "No wallet connected", derivationFailed for an
underlying WebCrypto failure propagating out of the derivation body,
passwordRequired for "Password required to decrypt content",
encryptFailed for "Failed to encrypt content: ...", and decryptFailed for
"Failed to decrypt content: ...". -/
inductive CryptoErr where
  | noWalletConnected
  | derivationFailed
  | passwordRequired
  | encryptFailed
  | decryptFailed
deriving Repr, DecidableEq

/-! ### getOrCreateMasterKey -/

/-- Outcome of the atomic entry section of getOrCreateMasterKey. -/
inductive EntryResult where
  | noWallet
  | cachedKey (k : List Nat)
  | awaitPending (p : PendingDeriv)
  | started (p : PendingDeriv)
deriving Repr, DecidableEq

/-- The entry section on a cache miss (crypto.ts lines 131-140): await an
already-pending derivation if there is one, otherwise publish a new pending
derivation. -/
def entryOnCacheMiss (address password : String) (derivOk : Bool)
    (st : CryptoState) : EntryResult × CryptoState :=
  match st.pendingKeyDerivation with
  | some p => (.awaitPending p, st)
  | none =>
    let p : PendingDeriv := ⟨address, password, derivOk⟩
    (.started p, { st with pendingKeyDerivation := some p })

/-- The atomic entry section of getOrCreateMasterKey (crypto.ts lines
94-140): resolve the wallet address (`identity`, `none` when no wallet is
connected), hash the password, return the cached key when wallet address and
password hash both match, otherwise await an already-pending derivation if
there is one, otherwise publish a new pending derivation. -/
def getOrCreateMasterKeyEntry (identity : Option String) (password : String)
    (derivOk : Bool) (st : CryptoState) : EntryResult × CryptoState :=
  match identity with
  | none => (.noWallet, st)
  | some address =>
    let passwordHash := hashPassword password
    match st.sessionMasterKey with
    | some k =>
      if st.currentWalletAddress = some address ∧ st.currentPasswordHash = some passwordHash then
        (.cachedKey k, st)
      else entryOnCacheMiss address password derivOk st
    | none => entryOnCacheMiss address password derivOk st

/-- The derivation body (crypto.ts lines 140-188): derive the master key from
"address:password" with PBKDF2, cache it together with the wallet address and
the password hash, and clear the pending handle in a `finally`; on failure
only the `finally` runs, so the cache variables keep their previous values. -/
def deriveBody (p : PendingDeriv) (st : CryptoState) :
    Except CryptoErr (List Nat) × CryptoState :=
  if p.ok then
    let masterKey := masterKeyFor p.address p.password
    (.ok masterKey,
      { st with sessionMasterKey := some masterKey
                currentWalletAddress := some p.address
                currentPasswordHash := some (hashPassword p.password)
                pendingKeyDerivation := none
                kdfInvocations := st.kdfInvocations + 1 })
  else
    (.error .derivationFailed,
      { st with pendingKeyDerivation := none
                kdfInvocations := st.kdfInvocations + 1 })

/-- getOrCreateMasterKey (crypto.ts lines 94-191), run to completion without
interleaving: the entry section followed by awaiting either the pending
derivation found in the cache or the freshly started one. -/
def getOrCreateMasterKey (identity : Option String) (password : String)
    (derivOk : Bool) (st : CryptoState) : Except CryptoErr (List Nat) × CryptoState :=
  match getOrCreateMasterKeyEntry identity password derivOk st with
  | (.noWallet, st1) => (.error .noWalletConnected, st1)
  | (.cachedKey k, st1) => (.ok k, st1)
  | (.awaitPending p, st1) => deriveBody p st1
  | (.started p, st1) => deriveBody p st1

/-- clearEncryptionCache (crypto.ts lines 196-202). -/
def clearEncryptionCache (st : CryptoState) : CryptoState :=
  { st with sessionMasterKey := none
            currentWalletAddress := none
            currentPasswordHash := none
            pendingKeyDerivation := none }

/-! ### Envelope cipher -/

/-- encryptContent (crypto.ts lines 208-261).  The random inputs of the
source (the generated content key, the content iv and the key-wrapping iv)
are explicit arguments. -/
def encryptContent (identity : Option String) (content password : String)
    (contentKeyBytes contentIv keyIv : List Nat) (derivOk : Bool)
    (st : CryptoState) : Except CryptoErr EncryptedData × CryptoState :=
  match getOrCreateMasterKey identity password derivOk st with
  | (.error _, st1) => (.error .encryptFailed, st1)
  | (.ok masterKey, st1) =>
    let encryptedContentBuffer := aesGcmEncrypt contentKeyBytes contentIv (textEncode content)
    let encryptedKeyBuffer := aesGcmEncrypt masterKey keyIv contentKeyBytes
    let combinedKeyData := keyIv ++ encryptedKeyBuffer
    (.ok { encryptedContent := arrayBufferToBase64 encryptedContentBuffer
           encryptedKey := arrayBufferToBase64 combinedKeyData
           iv := arrayBufferToBase64 contentIv },
     st1)

/-- decryptContent (crypto.ts lines 267-319).  Mirrors the source order:
master-key derivation first, then base64 parsing of encryptedKey, unwrap of
the content key, import of the recovered key (which requires exactly 32 raw
bytes), base64 parsing of encryptedContent and iv, and content decryption.
Every failure is caught and rethrown as the one generic decryption error. -/
def decryptContent (identity : Option String) (encryptedData : EncryptedData)
    (password : String) (derivOk : Bool) (st : CryptoState) :
    Except CryptoErr String × CryptoState :=
  match getOrCreateMasterKey identity password derivOk st with
  | (.error _, st1) => (.error .decryptFailed, st1)
  | (.ok masterKey, st1) =>
    match base64ToArrayBuffer encryptedData.encryptedKey with
    | none => (.error .decryptFailed, st1)
    | some combinedKeyData =>
      let keyIv := combinedKeyData.take 12
      let encryptedKeyBuffer := combinedKeyData.drop 12
      match aesGcmDecrypt masterKey keyIv encryptedKeyBuffer with
      | none => (.error .decryptFailed, st1)
      | some decryptedKeyBuffer =>
        if decryptedKeyBuffer.length = 32 then
          match base64ToArrayBuffer encryptedData.encryptedContent,
                base64ToArrayBuffer encryptedData.iv with
          | some encryptedContentBuffer, some contentIv =>
            match aesGcmDecrypt decryptedKeyBuffer contentIv encryptedContentBuffer with
            | none => (.error .decryptFailed, st1)
            | some plain => (.ok (textDecode plain), st1)
          | _, _ => (.error .decryptFailed, st1)
        else (.error .decryptFailed, st1)

/-- validatePassword (crypto.ts lines 325-335): attempt a decryption and turn
any thrown error into `false`. -/
def validatePassword (identity : Option String) (encryptedData : EncryptedData)
    (password : String) (derivOk : Bool) (st : CryptoState) : Bool × CryptoState :=
  match decryptContent identity encryptedData password derivOk st with
  | (.ok _, st1) => (true, st1)
  | (.error _, st1) => (false, st1)

/-! ### Policy -/

/-- shouldEncrypt (crypto.ts lines 342-344). -/
def shouldEncrypt (tags : List String) : Bool :=
  !(tags.any fun tag => jsToLower tag = "public")

/-- wasPromptEncrypted (crypto.ts lines 366-369). -/
def wasPromptEncrypted (tags : List String) : Bool :=
  !(tags.any fun tag => jsToLower tag = "public")

/-- isPromptEncrypted (crypto.ts lines 351-359): strings are never considered
encrypted; other values are checked structurally. -/
def isPromptEncrypted (content : JValue) : Bool :=
  match content with
  | .jstr _ => false
  | _ => isEncrypted content

/-- prepareContentForUpload (crypto.ts lines 375-387). -/
def prepareContentForUpload (identity : Option String) (content : String)
    (tags : List String) (password : Option String)
    (contentKeyBytes contentIv keyIv : List Nat) (derivOk : Bool)
    (st : CryptoState) : Except CryptoErr (String ⊕ EncryptedData) × CryptoState :=
  if shouldEncrypt tags then
    match password with
    | none => (.error .passwordRequired, st)
    | some pw =>
      match encryptContent identity content pw contentKeyBytes contentIv keyIv derivOk st with
      | (.ok ed, st1) => (.ok (.inr ed), st1)
      | (.error e, st1) => (.error e, st1)
  else (.ok (.inl content), st)

/-- prepareContentForDisplay (crypto.ts lines 393-409): strings pass through
unchanged; envelope-shaped values require a password and are decrypted;
anything else is stringified (String(content) on an object). -/
def prepareContentForDisplay (identity : Option String)
    (content : String ⊕ EncryptedData) (password : Option String)
    (derivOk : Bool) (st : CryptoState) : Except CryptoErr String × CryptoState :=
  match content with
  | .inl s => (.ok s, st)
  | .inr ed =>
    if isEncrypted ed.toJValue then
      match password with
      | none => (.error .passwordRequired, st)
      | some pw => decryptContent identity ed pw derivOk st
    else (.ok "[object Object]", st)

/-! ### Instrumented adversarial inputs -/

/-- Flip bit `b` of byte `i` of a buffer. -/
def flipBit (l : List Nat) (i b : Nat) : List Nat :=
  l.set i (l.getD i 0 ^^^ 2 ^ b)

/-- Flip bit `b` of byte `i` of the bytes a base64 field decodes to, and
re-encode; fields that do not decode are left alone. -/
def tamperField (s : String) (i b : Nat) : String :=
  match base64ToArrayBuffer s with
  | some l => arrayBufferToBase64 (flipBit l i b)
  | none => s

/-- A session cache is consistent when no derivation is pending and any
cached key is the one the cached wallet address and password fingerprint
say it is.  This holds for every state the module itself can reach. -/
def CacheConsistent (st : CryptoState) : Prop :=
  st.pendingKeyDerivation = none ∧
  ∀ k, st.sessionMasterKey = some k →
    ∃ a pw, st.currentWalletAddress = some a ∧
      st.currentPasswordHash = some (hashPassword pw) ∧
      k = masterKeyFor a pw

/-! ## Lemmas: base64 and text encodings -/

theorem charToSextet_sextetToChar : ∀ n, n < 64 → charToSextet (sextetToChar n) = some n := by
  decide

theorem sextetToChar_ne_pad : ∀ n, n < 64 → sextetToChar n ≠ '=' := by
  decide

theorem digits64 (n : Nat) :
    n / 262144 * 262144 + n / 4096 % 64 * 4096 + n / 64 % 64 * 64 + n % 64 = n := by
  have h0 := Nat.div_add_mod n 64
  have h1 := Nat.div_add_mod (n / 64) 64
  have h2 := Nat.div_add_mod (n / 64 / 64) 64
  have e1 : n / 64 / 64 = n / 4096 := by rw [Nat.div_div_eq_div_mul]
  have e2 : n / 64 / 64 / 64 = n / 262144 := by
    rw [e1, Nat.div_div_eq_div_mul]
  omega

theorem decodeChunks_encodeChunks (l : List Nat) (h : ByteOK l) :
    decodeChunks (encodeChunks l) = some l := by
  induction l using encodeChunks.induct with
  | case1 b0 b1 b2 rest ih =>
    have hb0 : b0 < 256 := h _ (by simp)
    have hb1 : b1 < 256 := h _ (by simp)
    have hb2 : b2 < 256 := h _ (by simp)
    have hrest : ByteOK rest := fun b hb => h b (by simp [hb])
    have hih := ih hrest
    simp only [encodeChunks]
    rw [decodeChunks]
    rw [if_neg (by
      rintro ⟨hc, -, -⟩
      exact sextetToChar_ne_pad _ (by omega) hc)]
    rw [if_neg (by
      rintro ⟨hc, -⟩
      exact sextetToChar_ne_pad _ (by omega) hc)]
    rw [charToSextet_sextetToChar _ (by omega), charToSextet_sextetToChar _ (by omega),
        charToSextet_sextetToChar _ (by omega), charToSextet_sextetToChar _ (by omega)]
    simp only [hih]
    rw [digits64]
    have hw0 : (b0 * 65536 + b1 * 256 + b2) / 65536 = b0 := by omega
    have hw1 : (b0 * 65536 + b1 * 256 + b2) / 256 % 256 = b1 := by omega
    have hw2 : (b0 * 65536 + b1 * 256 + b2) % 256 = b2 := by omega
    rw [hw0, hw1, hw2]
  | case2 b0 b1 =>
    have hb0 : b0 < 256 := h _ (by simp)
    have hb1 : b1 < 256 := h _ (by simp)
    simp only [encodeChunks]
    rw [decodeChunks]
    rw [if_neg (by
      rintro ⟨hc, -, -⟩
      exact sextetToChar_ne_pad _ (by omega) hc)]
    rw [if_pos ⟨rfl, rfl⟩]
    rw [charToSextet_sextetToChar _ (by omega), charToSextet_sextetToChar _ (by omega),
        charToSextet_sextetToChar _ (by omega)]
    have t1 := Nat.div_add_mod (b0 * 256 + b1) 16
    have t2 := Nat.div_add_mod ((b0 * 256 + b1) / 16) 64
    have t3 : (b0 * 256 + b1) / 16 / 64 = (b0 * 256 + b1) / 1024 := by
      rw [Nat.div_div_eq_div_mul]
    have k1 : (b0 * 256 + b1) / 1024 * 4 + (b0 * 256 + b1) / 16 % 64 / 16 = b0 := by omega
    have k2 : (b0 * 256 + b1) / 16 % 64 % 16 * 16 + (b0 * 256 + b1) % 16 * 4 / 4 = b1 := by
      omega
    dsimp only
    rw [k1, k2]
  | case3 b0 =>
    have hb0 : b0 < 256 := h _ (by simp)
    simp only [encodeChunks]
    rw [decodeChunks]
    rw [if_pos ⟨rfl, rfl, rfl⟩]
    rw [charToSextet_sextetToChar _ (by omega), charToSextet_sextetToChar _ (by omega)]
    have k1 : b0 / 4 * 4 + b0 % 4 * 16 / 16 = b0 := by omega
    dsimp only
    rw [k1]
  | case4 => rfl

theorem base64_roundtrip (l : List Nat) (h : ByteOK l) :
    base64ToArrayBuffer (arrayBufferToBase64 l) = some l := by
  unfold base64ToArrayBuffer arrayBufferToBase64
  exact decodeChunks_encodeChunks l h

theorem char_toNat_lt (c : Char) : c.toNat < 1114112 := by
  have h := c.valid
  have h2 : c.toNat = c.val.toNat := rfl
  rcases h with h1 | ⟨h1, h3⟩ <;> omega

theorem charBytes_ByteOK (c : Char) : ∀ b ∈ charBytes c, b < 256 := by
  have := char_toNat_lt c
  intro b hb
  simp only [charBytes, List.mem_cons, List.not_mem_nil, or_false] at hb
  rcases hb with rfl | rfl | rfl <;> omega

theorem textEncode_ByteOK (s : String) : ByteOK (textEncode s) := by
  intro b hb
  simp only [textEncode, List.mem_flatMap] at hb
  obtain ⟨c, -, hc⟩ := hb
  exact charBytes_ByteOK c b hc

theorem decodeCodepoints_flatMap (l : List Char) :
    decodeCodepoints (l.flatMap charBytes) = l := by
  induction l with
  | nil => rfl
  | cons c tl ih =>
    rw [List.flatMap_cons]
    show decodeCodepoints (charBytes c ++ tl.flatMap charBytes) = c :: tl
    simp only [charBytes, List.cons_append, List.nil_append]
    rw [decodeCodepoints, ih]
    have hlt := char_toNat_lt c
    have : c.toNat / 65536 * 65536 + c.toNat / 256 % 256 * 256 + c.toNat % 256 = c.toNat := by
      omega
    rw [this, Char.ofNat_toNat]

theorem textDecode_textEncode (s : String) : textDecode (textEncode s) = s := by
  unfold textDecode textEncode
  rw [decodeCodepoints_flatMap]

theorem char_toNat_injective {c d : Char} (h : c.toNat = d.toNat) : c = d := by
  have hc := Char.ofNat_toNat c
  have hd := Char.ofNat_toNat d
  rw [← hc, ← hd, h]

theorem charBytes_inj {c d : Char} (h : charBytes c = charBytes d) : c = d := by
  simp only [charBytes, List.cons.injEq, and_true] at h
  obtain ⟨h1, h2, h3⟩ := h
  have hc := char_toNat_lt c
  have hd := char_toNat_lt d
  exact char_toNat_injective (by omega)

theorem flatMap_charBytes_inj : ∀ l1 l2 : List Char,
    l1.flatMap charBytes = l2.flatMap charBytes → l1 = l2 := by
  intro l1
  induction l1 with
  | nil =>
    intro l2 h
    cases l2 with
    | nil => rfl
    | cons d tl =>
      rw [List.flatMap_nil, List.flatMap_cons] at h
      simp [charBytes] at h
  | cons c tl ih =>
    intro l2 h
    cases l2 with
    | nil =>
      rw [List.flatMap_nil, List.flatMap_cons] at h
      simp [charBytes] at h
    | cons d tl2 =>
      rw [List.flatMap_cons, List.flatMap_cons] at h
      have hlen : (charBytes c).length = (charBytes d).length := by
        simp [charBytes]
      obtain ⟨h1, h2⟩ := List.append_inj h hlen
      rw [charBytes_inj h1, ih tl2 h2]

theorem textEncode_inj {s t : String} (h : textEncode s = textEncode t) : s = t := by
  have hd := flatMap_charBytes_inj s.data t.data h
  cases s
  cases t
  exact congrArg String.mk hd

theorem string_append_left_cancel {a b c : String} (h : a ++ b = a ++ c) : b = c := by
  have hd := congrArg String.data h
  rw [String.data_append, String.data_append] at hd
  have hbc := List.append_cancel_left hd
  cases b
  cases c
  exact congrArg String.mk hbc

theorem hashPassword_inj {p1 p2 : String} (h : hashPassword p1 = hashPassword p2) : p1 = p2 :=
  string_append_left_cancel h

/-! ## Lemmas: the ideal AEAD cipher -/

theorem lenCode_zero : lenCode 0 = [0] := rfl

theorem lenCode_succ (n : Nat) : lenCode (n + 1) = 1 :: lenCode n := by
  simp [lenCode, List.replicate_succ]

theorem lenCode_append_inj : ∀ {m n : Nat} {s t : List Nat},
    lenCode m ++ s = lenCode n ++ t → m = n ∧ s = t := by
  intro m
  induction m with
  | zero =>
    intro n s t h
    cases n with
    | zero =>
      rw [lenCode_zero] at h
      simp only [List.cons_append, List.nil_append, List.cons.injEq] at h
      exact ⟨rfl, h.2⟩
    | succ k =>
      rw [lenCode_zero, lenCode_succ] at h
      simp only [List.cons_append, List.cons.injEq] at h
      omega
  | succ k ih =>
    intro n s t h
    cases n with
    | zero =>
      rw [lenCode_zero, lenCode_succ] at h
      simp only [List.cons_append, List.cons.injEq] at h
      omega
    | succ j =>
      rw [lenCode_succ k, lenCode_succ j] at h
      simp only [List.cons_append, List.cons.injEq, true_and] at h
      obtain ⟨hmn, hst⟩ := ih h
      exact ⟨by omega, hst⟩

theorem aeadHeader_append_inj {k1 iv1 k2 iv2 t1 t2 : List Nat}
    (h : aeadHeader k1 iv1 ++ t1 = aeadHeader k2 iv2 ++ t2) :
    k1 = k2 ∧ iv1 = iv2 ∧ t1 = t2 := by
  unfold aeadHeader at h
  simp only [List.append_assoc] at h
  obtain ⟨hlen, h2⟩ := lenCode_append_inj h
  obtain ⟨hk, h3⟩ := List.append_inj h2 hlen
  obtain ⟨hlen2, h4⟩ := lenCode_append_inj h3
  obtain ⟨hiv, ht⟩ := List.append_inj h4 hlen2
  exact ⟨hk, hiv, ht⟩

theorem aesGcmEncrypt_inj {k1 iv1 pt1 k2 iv2 pt2 : List Nat}
    (h : aesGcmEncrypt k1 iv1 pt1 = aesGcmEncrypt k2 iv2 pt2) :
    k1 = k2 ∧ iv1 = iv2 ∧ pt1 = pt2 := by
  unfold aesGcmEncrypt at h
  have hlen : (aeadHeader k1 iv1 ++ pt1).length = (aeadHeader k2 iv2 ++ pt2).length := by
    have hl := congrArg List.length h
    simp only [List.length_append] at hl ⊢
    omega
  exact aeadHeader_append_inj (List.append_inj h hlen).1

theorem double_take_drop (x : List Nat) :
    (x ++ x).length % 2 = 0 ∧ (x ++ x).take ((x ++ x).length / 2) = x ∧
      (x ++ x).drop ((x ++ x).length / 2) = x := by
  have hl : (x ++ x).length = x.length + x.length := by simp
  have h2 : (x ++ x).length / 2 = x.length := by omega
  refine ⟨by omega, ?_, ?_⟩
  · rw [h2, List.take_left]
  · rw [h2, List.drop_left]

theorem aesGcmDecrypt_encrypt (key iv pt : List Nat) :
    aesGcmDecrypt key iv (aesGcmEncrypt key iv pt) = some pt := by
  unfold aesGcmDecrypt aesGcmEncrypt
  obtain ⟨h0, h1, h2⟩ := double_take_drop (aeadHeader key iv ++ pt)
  rw [if_pos ⟨h0, by rw [h1, h2], by rw [h1, List.take_left]⟩, h1, List.drop_left]

theorem aesGcmDecrypt_some {key iv ct pt : List Nat}
    (h : aesGcmDecrypt key iv ct = some pt) : ct = aesGcmEncrypt key iv pt := by
  unfold aesGcmDecrypt at h
  split at h
  case isFalse => exact absurd h (by simp)
  case isTrue hcond =>
    obtain ⟨h1, h2, h3⟩ := hcond
    have hpt : pt = (ct.take (ct.length / 2)).drop (aeadHeader key iv).length :=
      (Option.some.inj h).symm
    have he1 : ct.take (ct.length / 2) = aeadHeader key iv ++ pt := by
      conv_lhs => rw [← List.take_append_drop (aeadHeader key iv).length (ct.take (ct.length / 2))]
      rw [h3, hpt]
    have hct : ct = ct.take (ct.length / 2) ++ ct.take (ct.length / 2) := by
      conv_lhs => rw [← List.take_append_drop (ct.length / 2) ct]
      rw [h2]
    rw [aesGcmEncrypt, ← he1]
    exact hct

theorem aesGcmDecrypt_wrong {k2 iv2 key iv pt : List Nat}
    (hne : ¬(k2 = key ∧ iv2 = iv)) :
    aesGcmDecrypt k2 iv2 (aesGcmEncrypt key iv pt) = none := by
  cases hopt : aesGcmDecrypt k2 iv2 (aesGcmEncrypt key iv pt) with
  | none => rfl
  | some pt2 =>
    exfalso
    have h := aesGcmDecrypt_some hopt
    obtain ⟨hk, hiv, -⟩ := aesGcmEncrypt_inj h
    exact hne ⟨hk.symm, hiv.symm⟩

theorem getD_append_left {a b : List Nat} {i : Nat} (h : i < a.length) :
    (a ++ b).getD i 0 = a.getD i 0 := by
  rw [List.getD_eq_getElem _ _ (by simp; omega), List.getD_eq_getElem _ _ h]
  exact List.getElem_append_left h

theorem getD_append_right {a b : List Nat} {i : Nat} (h1 : a.length ≤ i)
    (h2 : i < a.length + b.length) : (a ++ b).getD i 0 = b.getD (i - a.length) 0 := by
  rw [List.getD_eq_getElem _ _ (by simp; omega), List.getD_eq_getElem _ _ (by omega)]
  exact List.getElem_append_right h1

theorem getD_set_self {l : List Nat} {i : Nat} {v : Nat} (h : i < l.length) :
    (l.set i v).getD i 0 = v := by
  rw [List.getD_eq_getElem _ _ (by simp; omega)]
  exact List.getElem_set_self (by simp; omega)

theorem getD_set_ne {l : List Nat} {i j : Nat} {v : Nat} (hne : i ≠ j)
    (h : j < l.length) : (l.set i v).getD j 0 = l.getD j 0 := by
  rw [List.getD_eq_getElem _ _ (by simp; omega), List.getD_eq_getElem _ _ h]
  exact List.getElem_set_ne hne _

theorem set_append_self_ne (x : List Nat) (i v : Nat)
    (hi : i < (x ++ x).length) (hv : v ≠ (x ++ x).getD i 0) (y : List Nat) :
    (x ++ x).set i v ≠ y ++ y := by
  intro heq
  have hlx : (x ++ x).length = x.length + x.length := by simp
  have hylen : y.length = x.length := by
    have hl := congrArg List.length heq
    simp only [List.length_set, List.length_append] at hl
    omega
  have hg := fun j => congrArg (fun l => List.getD l j 0) heq
  simp only at hg
  rcases Nat.lt_or_ge i x.length with hcase | hcase
  · have e1 : ((x ++ x).set i v).getD i 0 = v := getD_set_self (by omega)
    have e2 : ((x ++ x).set i v).getD (i + x.length) 0 = (x ++ x).getD (i + x.length) 0 :=
      getD_set_ne (by omega) (by omega)
    have e3 : (x ++ x).getD (i + x.length) 0 = x.getD i 0 := by
      rw [getD_append_right (by omega) (by omega)]
      congr 1
      omega
    have e4 : (x ++ x).getD i 0 = x.getD i 0 := getD_append_left hcase
    have e5 : (y ++ y).getD i 0 = y.getD i 0 := getD_append_left (by omega)
    have e6 : (y ++ y).getD (i + x.length) 0 = y.getD i 0 := by
      rw [getD_append_right (by omega) (by omega)]
      congr 1
      omega
    have : v = x.getD i 0 := by
      rw [← e1, hg i, e5, ← e6, ← hg (i + x.length), e2, e3]
    rw [e4] at hv
    exact hv this
  · have hipos : x.length ≤ i := hcase
    have hxpos : 0 < x.length := by omega
    have e1 : ((x ++ x).set i v).getD i 0 = v := getD_set_self (by omega)
    have e2 : ((x ++ x).set i v).getD (i - x.length) 0 = (x ++ x).getD (i - x.length) 0 :=
      getD_set_ne (by omega) (by omega)
    have e3 : (x ++ x).getD (i - x.length) 0 = x.getD (i - x.length) 0 :=
      getD_append_left (by omega)
    have e4 : (x ++ x).getD i 0 = x.getD (i - x.length) 0 :=
      getD_append_right (by omega) (by omega)
    have e5 : (y ++ y).getD i 0 = y.getD (i - x.length) 0 := by
      rw [getD_append_right (by omega) (by omega), hylen]
    have e6 : (y ++ y).getD (i - x.length) 0 = y.getD (i - x.length) 0 :=
      getD_append_left (by omega)
    have : v = x.getD (i - x.length) 0 := by
      rw [← e1, hg i, e5, ← e6, ← hg (i - x.length), e2, e3]
    rw [e4] at hv
    exact hv this

theorem aesGcmDecrypt_set_ne {key iv pt : List Nat} (k2 iv2 : List Nat) {i v : Nat}
    (hi : i < (aesGcmEncrypt key iv pt).length)
    (hv : v ≠ (aesGcmEncrypt key iv pt).getD i 0) :
    aesGcmDecrypt k2 iv2 ((aesGcmEncrypt key iv pt).set i v) = none := by
  cases hopt : aesGcmDecrypt k2 iv2 ((aesGcmEncrypt key iv pt).set i v) with
  | none => rfl
  | some pt2 =>
    exfalso
    have h := aesGcmDecrypt_some hopt
    exact set_append_self_ne (aeadHeader key iv ++ pt) i v hi hv (aeadHeader k2 iv2 ++ pt2) h

/-! ## Lemmas: byte bounds of the model buffers -/

theorem ByteOK_append {l1 l2 : List Nat} (h1 : ByteOK l1) (h2 : ByteOK l2) :
    ByteOK (l1 ++ l2) := by
  intro b hb
  rcases List.mem_append.mp hb with h | h
  · exact h1 b h
  · exact h2 b h

theorem lenCode_ByteOK (n : Nat) : ByteOK (lenCode n) := by
  intro b hb
  rcases List.mem_append.mp hb with h | h
  · have := List.eq_of_mem_replicate h
    omega
  · simp only [List.mem_singleton] at h
    omega

theorem aeadHeader_ByteOK {key iv : List Nat} (hk : ByteOK key) (hiv : ByteOK iv) :
    ByteOK (aeadHeader key iv) :=
  ByteOK_append (ByteOK_append (ByteOK_append (lenCode_ByteOK _) hk) (lenCode_ByteOK _)) hiv

theorem aesGcmEncrypt_ByteOK {key iv pt : List Nat} (hk : ByteOK key) (hiv : ByteOK iv)
    (hpt : ByteOK pt) : ByteOK (aesGcmEncrypt key iv pt) := by
  have h := ByteOK_append (aeadHeader_ByteOK hk hiv) hpt
  exact ByteOK_append h h

theorem pbkdf2Derive_ByteOK {input salt : List Nat} (hin : ByteOK input)
    (hsalt : ByteOK salt) : ByteOK (pbkdf2Derive input salt) :=
  ByteOK_append (ByteOK_append (lenCode_ByteOK _) hsalt) hin

theorem masterKeyFor_ByteOK (a pw : String) : ByteOK (masterKeyFor a pw) :=
  pbkdf2Derive_ByteOK (textEncode_ByteOK _) (textEncode_ByteOK _)

theorem flipBit_getD_ne {l : List Nat} {i : Nat} (b : Nat) :
    l.getD i 0 ^^^ 2 ^ b ≠ l.getD i 0 := by
  intro h
  have h2 : l.getD i 0 ^^^ (l.getD i 0 ^^^ 2 ^ b) = l.getD i 0 ^^^ l.getD i 0 := by rw [h]
  rw [← Nat.xor_assoc, Nat.xor_self, Nat.zero_xor] at h2
  have := Nat.two_pow_pos b
  omega

theorem flipBit_ByteOK {l : List Nat} {i b : Nat} (h : ByteOK l) (hb : b < 8) :
    ByteOK (flipBit l i b) := by
  intro x hx
  rcases List.mem_or_eq_of_mem_set hx with hmem | rfl
  · exact h x hmem
  · rcases Nat.lt_or_ge i l.length with hi | hi
    · rw [List.getD_eq_getElem _ _ hi]
      have h1 : l[i] < 256 := h _ (List.getElem_mem hi)
      have h2 : (2 : Nat) ^ b < 256 := by
        calc (2 : Nat) ^ b ≤ 2 ^ 7 := Nat.pow_le_pow_right (by omega) (by omega)
        _ < 256 := by omega
      have h3 : l[i] ^^^ 2 ^ b < 2 ^ 8 := Nat.xor_lt_two_pow (by omega) (by omega)
      omega
    · rw [List.getD_eq_default _ _ hi]
      have h2 : (2 : Nat) ^ b < 256 := by
        calc (2 : Nat) ^ b ≤ 2 ^ 7 := Nat.pow_le_pow_right (by omega) (by omega)
        _ < 256 := by omega
      simpa using h2

/-! ## Lemmas: key derivation and the session cache -/

theorem masterKeyFor_pw_inj {a p1 p2 : String}
    (h : masterKeyFor a p1 = masterKeyFor a p2) : p1 = p2 := by
  unfold masterKeyFor pbkdf2Derive at h
  have h2 := List.append_cancel_left h
  have h3 := textEncode_inj h2
  exact string_append_left_cancel h3

theorem CacheConsistent_init : CacheConsistent initState := by
  refine ⟨rfl, fun k hk => ?_⟩
  simp [initState] at hk

theorem CacheConsistent_clear (st : CryptoState) :
    CacheConsistent (clearEncryptionCache st) := by
  refine ⟨rfl, fun k hk => ?_⟩
  simp [clearEncryptionCache] at hk

theorem CacheConsistent_mk {st1 : CryptoState} {addr pw : String}
    (h1 : st1.sessionMasterKey = some (masterKeyFor addr pw))
    (h2 : st1.currentWalletAddress = some addr)
    (h3 : st1.currentPasswordHash = some (hashPassword pw))
    (h4 : st1.pendingKeyDerivation = none) : CacheConsistent st1 :=
  ⟨h4, fun _ hk => ⟨addr, pw, h2, h3, Option.some.inj (hk.symm.trans h1)⟩⟩

theorem getOrCreateMasterKey_hit {addr pw : String} {st : CryptoState} {k : List Nat}
    (dk : Bool) (h1 : st.sessionMasterKey = some k)
    (h2 : st.currentWalletAddress = some addr)
    (h3 : st.currentPasswordHash = some (hashPassword pw)) :
    getOrCreateMasterKey (some addr) pw dk st = (.ok k, st) := by
  unfold getOrCreateMasterKey getOrCreateMasterKeyEntry
  simp only [h1]
  rw [if_pos ⟨h2, h3⟩]

theorem getOrCreateMasterKey_miss {addr pw : String} (dk : Bool) {st : CryptoState}
    (hpend : st.pendingKeyDerivation = none)
    (hmiss : st.sessionMasterKey = none ∨
      ¬(st.currentWalletAddress = some addr ∧
        st.currentPasswordHash = some (hashPassword pw))) :
    getOrCreateMasterKey (some addr) pw dk st =
      deriveBody ⟨addr, pw, dk⟩ { st with pendingKeyDerivation := some ⟨addr, pw, dk⟩ } := by
  unfold getOrCreateMasterKey getOrCreateMasterKeyEntry entryOnCacheMiss
  cases hsm : st.sessionMasterKey with
  | none => simp only [hpend]
  | some _ =>
    rcases hmiss with hx | hx
    · rw [hsm] at hx
      exact absurd hx (by simp)
    · simp only [if_neg hx, hpend]

theorem deriveBody_ok (addr pw : String) (st : CryptoState) :
    deriveBody ⟨addr, pw, true⟩ st =
      (.ok (masterKeyFor addr pw),
       { st with sessionMasterKey := some (masterKeyFor addr pw)
                 currentWalletAddress := some addr
                 currentPasswordHash := some (hashPassword pw)
                 pendingKeyDerivation := none
                 kdfInvocations := st.kdfInvocations + 1 }) := rfl

theorem deriveBody_fail (addr pw : String) (st : CryptoState) :
    deriveBody ⟨addr, pw, false⟩ st =
      (.error .derivationFailed,
       { st with pendingKeyDerivation := none
                 kdfInvocations := st.kdfInvocations + 1 }) := rfl

theorem getOrCreateMasterKey_miss_ok (addr pw : String) {st : CryptoState}
    (hpend : st.pendingKeyDerivation = none)
    (hmiss : st.sessionMasterKey = none ∨
      ¬(st.currentWalletAddress = some addr ∧
        st.currentPasswordHash = some (hashPassword pw))) :
    (getOrCreateMasterKey (some addr) pw true st).1 = .ok (masterKeyFor addr pw) := by
  rw [getOrCreateMasterKey_miss true hpend hmiss, deriveBody_ok]

theorem getOrCreateMasterKey_miss_kdf (addr pw : String) {st : CryptoState}
    (hpend : st.pendingKeyDerivation = none)
    (hmiss : st.sessionMasterKey = none ∨
      ¬(st.currentWalletAddress = some addr ∧
        st.currentPasswordHash = some (hashPassword pw))) :
    ((getOrCreateMasterKey (some addr) pw true st).2).kdfInvocations =
      st.kdfInvocations + 1 := by
  rw [getOrCreateMasterKey_miss true hpend hmiss, deriveBody_ok]

theorem getOrCreateMasterKey_ok (addr pw : String) (st : CryptoState)
    (hcc : CacheConsistent st) :
    ∃ st1, getOrCreateMasterKey (some addr) pw true st = (.ok (masterKeyFor addr pw), st1) ∧
      st1.sessionMasterKey = some (masterKeyFor addr pw) ∧
      st1.currentWalletAddress = some addr ∧
      st1.currentPasswordHash = some (hashPassword pw) ∧
      st1.pendingKeyDerivation = none := by
  obtain ⟨hpend, hkey⟩ := hcc
  by_cases hcond : st.sessionMasterKey = some (masterKeyFor addr pw) ∧
      st.currentWalletAddress = some addr ∧
      st.currentPasswordHash = some (hashPassword pw)
  · obtain ⟨h1, h2, h3⟩ := hcond
    exact ⟨st, getOrCreateMasterKey_hit true h1 h2 h3, h1, h2, h3, hpend⟩
  · have hmiss : st.sessionMasterKey = none ∨
        ¬(st.currentWalletAddress = some addr ∧
          st.currentPasswordHash = some (hashPassword pw)) := by
      cases hsm : st.sessionMasterKey with
      | none => exact Or.inl rfl
      | some k =>
        right
        rintro ⟨ha, hh⟩
        obtain ⟨a0, pw0, ha0, hh0, hk0⟩ := hkey k hsm
        have haddr : a0 = addr := Option.some.inj (ha0.symm.trans ha)
        have hpw : pw0 = pw := hashPassword_inj (Option.some.inj (hh0.symm.trans hh))
        exact hcond ⟨by rw [hsm, hk0, haddr, hpw], ha, hh⟩
    rw [getOrCreateMasterKey_miss true hpend hmiss, deriveBody_ok]
    exact ⟨_, rfl, rfl, rfl, rfl, rfl⟩

theorem encryptContent_eq (addr content pw : String) (ck civ kiv : List Nat)
    (st : CryptoState) (hcc : CacheConsistent st) {ed : EncryptedData} {st1 : CryptoState}
    (henc : encryptContent (some addr) content pw ck civ kiv true st = (.ok ed, st1)) :
    ed = { encryptedContent :=
             arrayBufferToBase64 (aesGcmEncrypt ck civ (textEncode content))
           encryptedKey :=
             arrayBufferToBase64 (kiv ++ aesGcmEncrypt (masterKeyFor addr pw) kiv ck)
           iv := arrayBufferToBase64 civ } ∧
      CacheConsistent st1 := by
  obtain ⟨stA, hA, f1, f2, f3, f4⟩ := getOrCreateMasterKey_ok addr pw st hcc
  have henc2 : encryptContent (some addr) content pw ck civ kiv true st =
      (.ok { encryptedContent :=
               arrayBufferToBase64 (aesGcmEncrypt ck civ (textEncode content))
             encryptedKey :=
               arrayBufferToBase64 (kiv ++ aesGcmEncrypt (masterKeyFor addr pw) kiv ck)
             iv := arrayBufferToBase64 civ },
       stA) := by
    unfold encryptContent
    rw [hA]
  have h3 := henc.symm.trans henc2
  simp only [Prod.mk.injEq, Except.ok.injEq] at h3
  obtain ⟨hed, hst⟩ := h3
  refine ⟨hed, ?_⟩
  rw [hst]
  exact CacheConsistent_mk f1 f2 f3 f4

theorem decrypt_encrypt_core (addr content pw : String) (ck civ kiv : List Nat)
    (hck : ck.length = 32) (hckB : ByteOK ck) (hcivB : ByteOK civ)
    (hkiv : kiv.length = 12) (hkivB : ByteOK kiv)
    (st st1 st2 : CryptoState) (hcc : CacheConsistent st) (hcc2 : CacheConsistent st2)
    (ed : EncryptedData)
    (henc : encryptContent (some addr) content pw ck civ kiv true st = (.ok ed, st1)) :
    (decryptContent (some addr) ed pw true st2).1 = .ok content := by
  obtain ⟨hed, -⟩ := encryptContent_eq addr content pw ck civ kiv st hcc henc
  obtain ⟨stB, hB, -, -, -, -⟩ := getOrCreateMasterKey_ok addr pw st2 hcc2
  have hmkB : ByteOK (masterKeyFor addr pw) := masterKeyFor_ByteOK addr pw
  have hWB : ByteOK (kiv ++ aesGcmEncrypt (masterKeyFor addr pw) kiv ck) :=
    ByteOK_append hkivB (aesGcmEncrypt_ByteOK hmkB hkivB hckB)
  have hCB : ByteOK (aesGcmEncrypt ck civ (textEncode content)) :=
    aesGcmEncrypt_ByteOK hckB hcivB (textEncode_ByteOK content)
  unfold decryptContent
  rw [hB, hed]
  dsimp only
  rw [base64_roundtrip _ hWB]
  dsimp only
  have htake : (kiv ++ aesGcmEncrypt (masterKeyFor addr pw) kiv ck).take 12 = kiv := by
    rw [← hkiv]
    exact List.take_left kiv _
  have hdrop : (kiv ++ aesGcmEncrypt (masterKeyFor addr pw) kiv ck).drop 12 =
      aesGcmEncrypt (masterKeyFor addr pw) kiv ck := by
    rw [← hkiv]
    exact List.drop_left kiv _
  rw [htake, hdrop, aesGcmDecrypt_encrypt]
  dsimp only
  rw [if_pos hck]
  rw [base64_roundtrip _ hCB, base64_roundtrip _ hcivB]
  dsimp only
  rw [aesGcmDecrypt_encrypt]
  dsimp only
  rw [textDecode_textEncode]

theorem set_ne_self {l : List Nat} {i v : Nat} (hi : i < l.length)
    (hv : v ≠ l.getD i 0) : l.set i v ≠ l := by
  intro h
  have h2 := congrArg (fun l0 => List.getD l0 i 0) h
  simp only at h2
  rw [getD_set_self hi] at h2
  exact hv h2

theorem isJTrue_iff (v : JValue) : isJTrue v = true ↔ v = .jbool true := by
  cases v with
  | jbool b => cases b <;> simp [isJTrue]
  | jnull => simp [isJTrue]
  | jundefined => simp [isJTrue]
  | jstr s => simp [isJTrue]
  | jobj fields => simp [isJTrue]

/-! ## Concrete inputs used by the witnesses -/

/-- A concrete 256-bit content key (the output of generateAESKey). -/
def ckW : List Nat := List.replicate 32 7

/-- A concrete 12-byte content iv. -/
def civW : List Nat := List.replicate 12 3

/-- A concrete 12-byte key-wrapping iv. -/
def kivW : List Nat := List.replicate 12 5

/-- The envelope produced by the concrete end-to-end encryption. -/
def edW : EncryptedData :=
  match (encryptContent (some "addr123") "secret value" "correct-horse"
      ckW civW kivW true initState).1 with
  | .ok ed => ed
  | .error _ => ⟨"", "", ""⟩

/-! ## The claims -/

/-- Claim C1: for every content string and password, given a resolvable
identity (a consistent session cache, a 256-bit content key and 12-byte ivs
as the random inputs), decryptContent applied with the same password to the
envelope produced by encryptContent returns the original content. -/
theorem C1_encrypt_decrypt_roundtrip
    (addr content password : String) (ck civ kiv : List Nat) (st st1 : CryptoState)
    (hcc : CacheConsistent st)
    (hck : ck.length = 32) (hckB : ByteOK ck) (hcivB : ByteOK civ)
    (hkiv : kiv.length = 12) (hkivB : ByteOK kiv) (ed : EncryptedData)
    (henc : encryptContent (some addr) content password ck civ kiv true st = (.ok ed, st1)) :
    (decryptContent (some addr) ed password true st1).1 = .ok content := by
  obtain ⟨-, hcc1⟩ := encryptContent_eq addr content password ck civ kiv st hcc henc
  exact decrypt_encrypt_core addr content password ck civ kiv hck hckB hcivB hkiv hkivB
    st st1 st1 hcc hcc1 ed henc

/-- Witness for C1 at a concrete identity, password, content and random
inputs. -/
theorem C1_witness :
    (decryptContent (some "addr123") edW "correct-horse" true
      (encryptContent (some "addr123") "secret value" "correct-horse"
        ckW civW kivW true initState).2).1 = .ok "secret value" :=
  C1_encrypt_decrypt_roundtrip "addr123" "secret value" "correct-horse" ckW civW kivW
    initState
    (encryptContent (some "addr123") "secret value" "correct-horse"
      ckW civW kivW true initState).2
    CacheConsistent_init (by decide) (by decide) (by decide) (by decide) (by decide)
    edW rfl

/-- Claim C7: validatePassword is total (it returns a boolean rather than
throwing), leaves the same session state as the decryption attempt it wraps,
and returns true exactly when decryptContent succeeds on the same inputs and
false exactly when decryptContent throws. -/
theorem C7_validatePassword (identity : Option String) (ed : EncryptedData)
    (pw : String) (dk : Bool) (st : CryptoState) :
    (validatePassword identity ed pw dk st).2 = (decryptContent identity ed pw dk st).2 ∧
    ((validatePassword identity ed pw dk st).1 = true ↔
      ∃ s, (decryptContent identity ed pw dk st).1 = .ok s) ∧
    ((validatePassword identity ed pw dk st).1 = false ↔
      ∃ e, (decryptContent identity ed pw dk st).1 = .error e) := by
  unfold validatePassword
  rcases hd : decryptContent identity ed pw dk st with ⟨r, st1⟩
  cases r <;> simp

/-- Claim C8: shouldEncrypt returns false exactly when some tag equals
"public" under case-insensitive comparison, and in particular on the four
concrete examples. -/
theorem C8_shouldEncrypt (tags : List String) :
    (shouldEncrypt tags = false ↔ ∃ t ∈ tags, jsToLower t = "public") ∧
    shouldEncrypt ["Public"] = false ∧ shouldEncrypt ["PUBLIC"] = false ∧
    shouldEncrypt ["publicize"] = true ∧ shouldEncrypt ([] : List String) = true := by
  refine ⟨?_, by decide, by decide, by decide, rfl⟩
  simp [shouldEncrypt, List.any_eq_true]

/-- Claim C9: isEncrypted returns true exactly when the value is truthy, its
isEncrypted field is strictly the boolean true, and the three payload fields
are truthy (the JavaScript notion of presence); fields that are present but
hold empty strings make it return false, as the concrete conjuncts show. -/
theorem C9_isEncrypted (v : JValue) :
    (isEncrypted v = true ↔
      (truthy v = true ∧ getField v "isEncrypted" = .jbool true ∧
       truthy (getField v "encryptedContent") = true ∧
       truthy (getField v "encryptedKey") = true ∧
       truthy (getField v "iv") = true)) ∧
    isEncrypted (EncryptedData.toJValue ⟨"", "", ""⟩) = false ∧
    isEncrypted (EncryptedData.toJValue ⟨"QQ==", "QQ==", "QQ=="⟩) = true := by
  refine ⟨?_, rfl, rfl⟩
  unfold isEncrypted
  simp [Bool.and_eq_true, isJTrue_iff, and_assoc]

/-- Claim C10: every string input is reported unencrypted by
isPromptEncrypted — even a string that happens to be the JSON serialization
of an envelope — and prepareContentForDisplay returns string inputs
unchanged, with or without a password, leaving the session state (and hence
the derivation machinery) untouched. -/
theorem C10_plain_strings (s : String) (identity : Option String)
    (password : Option String) (dk : Bool) (st : CryptoState) :
    isPromptEncrypted (.jstr s) = false ∧
    prepareContentForDisplay identity (.inl s) password dk st = (.ok s, st) :=
  ⟨rfl, rfl⟩

/-- Claim C4 counterexample: on an envelope none of whose fields is valid
base64, decryptContent throws the one generic decryption error — the code
defines no distinct CorruptEnvelope — and the key derivation has already
run before the structural failure: the derivation-attempt counter of the
resulting state has grown by one, so the PBKDF2 derivation (a cryptographic
primitive) was invoked before the malformed field was noticed. -/
theorem C4_counterexample :
    (decryptContent (some "addr123") ⟨"!!!!", "!!!!", "!!!!"⟩ "pw" true initState).1 =
      .error .decryptFailed ∧
    ((decryptContent (some "addr123") ⟨"!!!!", "!!!!", "!!!!"⟩ "pw" true
        initState).2).kdfInvocations = initState.kdfInvocations + 1 :=
  ⟨rfl, rfl⟩

/-- Claim C4 (amended): an envelope whose encryptedKey field is malformed
base64 makes decryptContent fail with the same generic decryption error as
every other failure (there is no distinct CorruptEnvelope), and only after
master-key derivation has been attempted: the resulting state is exactly the
state the key-derivation step leaves behind. -/
theorem C4_amended (addr pw : String) (ed : EncryptedData) (st : CryptoState)
    (hbad : base64ToArrayBuffer ed.encryptedKey = none) :
    decryptContent (some addr) ed pw true st =
      (.error .decryptFailed, (getOrCreateMasterKey (some addr) pw true st).2) := by
  unfold decryptContent
  rcases hg : getOrCreateMasterKey (some addr) pw true st with ⟨r, st1⟩
  cases r with
  | error e => rfl
  | ok mk =>
    rw [hbad]

/-- Witness for C4 (amended) at a concrete malformed envelope. -/
theorem C4_amended_witness :
    decryptContent (some "addr123") ⟨"!!!!", "!!!!", "!!!!"⟩ "pw" true initState =
      (.error .decryptFailed,
       (getOrCreateMasterKey (some "addr123") "pw" true initState).2) :=
  C4_amended "addr123" "pw" ⟨"!!!!", "!!!!", "!!!!"⟩ initState rfl

/-- Claim C5: master-key derivations in two independent sessions — each
starting from a cleared session cache, whatever the prior states were —
produce identical key material for the same identity and password, and an
envelope encrypted in the first session decrypts in the second. -/
theorem C5_determinism (addr pw content : String) (ck civ kiv : List Nat)
    (stX stY : CryptoState)
    (hck : ck.length = 32) (hckB : ByteOK ck) (hcivB : ByteOK civ)
    (hkiv : kiv.length = 12) (hkivB : ByteOK kiv)
    (ed : EncryptedData) (st1 : CryptoState)
    (henc : encryptContent (some addr) content pw ck civ kiv true
      (clearEncryptionCache stX) = (.ok ed, st1)) :
    (getOrCreateMasterKey (some addr) pw true (clearEncryptionCache stX)).1 =
      .ok (masterKeyFor addr pw) ∧
    (getOrCreateMasterKey (some addr) pw true (clearEncryptionCache stY)).1 =
      .ok (masterKeyFor addr pw) ∧
    (decryptContent (some addr) ed pw true (clearEncryptionCache stY)).1 = .ok content := by
  obtain ⟨stA, hA, -⟩ := getOrCreateMasterKey_ok addr pw _ (CacheConsistent_clear stX)
  obtain ⟨stB, hB, -⟩ := getOrCreateMasterKey_ok addr pw _ (CacheConsistent_clear stY)
  refine ⟨by rw [hA], by rw [hB], ?_⟩
  exact decrypt_encrypt_core addr content pw ck civ kiv hck hckB hcivB hkiv hkivB
    (clearEncryptionCache stX) st1 (clearEncryptionCache stY)
    (CacheConsistent_clear stX) (CacheConsistent_clear stY) ed henc

/-- The envelope produced in the first session of the C5 witness. -/
def edW5 : EncryptedData :=
  match (encryptContent (some "addr123") "secret value" "correct-horse"
      ckW civW kivW true (clearEncryptionCache initState)).1 with
  | .ok ed => ed
  | .error _ => ⟨"", "", ""⟩

/-- A session state holding a master key cached by an earlier successful
derivation for the password p1 (exactly what getOrCreateMasterKey caches). -/
def stCached : CryptoState :=
  { sessionMasterKey := some (masterKeyFor "addr123" "p1")
    currentWalletAddress := some "addr123"
    currentPasswordHash := some (hashPassword "p1")
    pendingKeyDerivation := none
    kdfInvocations := 1 }

/-- Witness for C5 at two concrete sessions with different prior states. -/
theorem C5_witness :
    (getOrCreateMasterKey (some "addr123") "correct-horse" true
      (clearEncryptionCache initState)).1 = .ok (masterKeyFor "addr123" "correct-horse") ∧
    (getOrCreateMasterKey (some "addr123") "correct-horse" true
      (clearEncryptionCache stCached)).1 = .ok (masterKeyFor "addr123" "correct-horse") ∧
    (decryptContent (some "addr123") edW5 "correct-horse" true
      (clearEncryptionCache stCached)).1 = .ok "secret value" :=
  C5_determinism "addr123" "correct-horse" "secret value" ckW civW kivW
    initState stCached (by decide) (by decide) (by decide) (by decide) (by decide)
    edW5 (encryptContent (some "addr123") "secret value" "correct-horse"
      ckW civW kivW true (clearEncryptionCache initState)).2 rfl

/-- Claim C6 counterexample: with a master key cached from an earlier
successful derivation for password p1, a failing derivation for password p2
clears the pending handle but leaves the previously cached master key in
place: the session cache still holds the stale key afterwards,
contradicting the claim that the cache state is reset completely on a
derivation failure. -/
theorem C6_counterexample :
    (getOrCreateMasterKey (some "addr123") "p2" false stCached).1 =
      .error .derivationFailed ∧
    ((getOrCreateMasterKey (some "addr123") "p2" false stCached).2).sessionMasterKey =
      some (masterKeyFor "addr123" "p1") ∧
    ((getOrCreateMasterKey (some "addr123") "p2" false stCached).2).pendingKeyDerivation =
      none :=
  ⟨rfl, rfl, rfl⟩

/-- Claim C6 (amended): on a failed derivation the pending-derivation handle
is cleared so a later call can retry, and no partially derived key is ever
written — the cache fields are exactly what they were before — but a master
key cached by an earlier successful derivation is retained rather than
reset; a subsequent call whose primitives succeed obtains the correct key. -/
theorem C6_amended (addr pw : String) (st : CryptoState) (hcc : CacheConsistent st) :
    ((getOrCreateMasterKey (some addr) pw false st).2).pendingKeyDerivation = none ∧
    ((getOrCreateMasterKey (some addr) pw false st).2).sessionMasterKey =
      st.sessionMasterKey ∧
    ((getOrCreateMasterKey (some addr) pw false st).2).currentWalletAddress =
      st.currentWalletAddress ∧
    ((getOrCreateMasterKey (some addr) pw false st).2).currentPasswordHash =
      st.currentPasswordHash ∧
    (getOrCreateMasterKey (some addr) pw true
        ((getOrCreateMasterKey (some addr) pw false st).2)).1 =
      .ok (masterKeyFor addr pw) := by
  obtain ⟨hpend, hkey⟩ := hcc
  by_cases hcond : st.sessionMasterKey = some (masterKeyFor addr pw) ∧
      st.currentWalletAddress = some addr ∧
      st.currentPasswordHash = some (hashPassword pw)
  · obtain ⟨h1, h2, h3⟩ := hcond
    rw [getOrCreateMasterKey_hit false h1 h2 h3]
    exact ⟨hpend, rfl, rfl, rfl, by rw [getOrCreateMasterKey_hit true h1 h2 h3]⟩
  · have hmiss : st.sessionMasterKey = none ∨
        ¬(st.currentWalletAddress = some addr ∧
          st.currentPasswordHash = some (hashPassword pw)) := by
      cases hsm : st.sessionMasterKey with
      | none => exact Or.inl rfl
      | some k =>
        right
        rintro ⟨ha, hh⟩
        obtain ⟨a0, pw0, ha0, hh0, hk0⟩ := hkey k hsm
        have haddr : a0 = addr := Option.some.inj (ha0.symm.trans ha)
        have hpw : pw0 = pw := hashPassword_inj (Option.some.inj (hh0.symm.trans hh))
        exact hcond ⟨by rw [hsm, hk0, haddr, hpw], ha, hh⟩
    have hfail : getOrCreateMasterKey (some addr) pw false st =
        (.error .derivationFailed,
         { st with pendingKeyDerivation := none,
                   kdfInvocations := st.kdfInvocations + 1 }) := by
      rw [getOrCreateMasterKey_miss false hpend hmiss]
      rfl
    rw [hfail]
    exact ⟨rfl, rfl, rfl, rfl, getOrCreateMasterKey_miss_ok addr pw rfl hmiss⟩

/-- Witness for C6 (amended) at the concrete cached session. -/
theorem C6_amended_witness :
    ((getOrCreateMasterKey (some "addr123") "p2" false stCached).2).pendingKeyDerivation =
      none ∧
    ((getOrCreateMasterKey (some "addr123") "p2" false stCached).2).sessionMasterKey =
      stCached.sessionMasterKey ∧
    ((getOrCreateMasterKey (some "addr123") "p2" false stCached).2).currentWalletAddress =
      stCached.currentWalletAddress ∧
    ((getOrCreateMasterKey (some "addr123") "p2" false stCached).2).currentPasswordHash =
      stCached.currentPasswordHash ∧
    (getOrCreateMasterKey (some "addr123") "p2" true
        ((getOrCreateMasterKey (some "addr123") "p2" false stCached).2)).1 =
      .ok (masterKeyFor "addr123" "p2") :=
  C6_amended "addr123" "p2" stCached (CacheConsistent_mk rfl rfl rfl rfl)

/-- A pending derivation belonging to another caller with different
credentials, used to exhibit the sharing behaviour. -/
def pendingW : PendingDeriv := ⟨"otherAddr", "otherPw", true⟩

/-- A session state in which a derivation for other credentials is still in
flight. -/
def stSharedW : CryptoState := { initState with pendingKeyDerivation := some pendingW }

/-- Claim C2 counterexample: from a fresh session, caller A starts a
derivation for password P1; caller B, calling with a different password P2
while that derivation is in flight, does not start a fresh derivation for
its own credentials — its entry step resolves to awaiting A's pending
derivation — and that derivation resolves to the key for P1, which is not
the key derived from P2.  The in-flight check of the code compares nothing:
any pending derivation is awaited, whatever identity and password it
belongs to. -/
theorem C2_counterexample :
    (getOrCreateMasterKeyEntry (some "addr") "P1" true initState).1 =
      .started ⟨"addr", "P1", true⟩ ∧
    (getOrCreateMasterKeyEntry (some "addr") "P2" true
        ((getOrCreateMasterKeyEntry (some "addr") "P1" true initState).2)).1 =
      .awaitPending ⟨"addr", "P1", true⟩ ∧
    (deriveBody ⟨"addr", "P1", true⟩
        ((getOrCreateMasterKeyEntry (some "addr") "P2" true
          ((getOrCreateMasterKeyEntry (some "addr") "P1" true initState).2)).2)).1 =
      .ok (masterKeyFor "addr" "P1") ∧
    masterKeyFor "addr" "P1" ≠ masterKeyFor "addr" "P2" :=
  ⟨rfl, rfl, rfl, by decide⟩

/-- Claim C2 (amended): a caller that finds any derivation in flight awaits
it regardless of which identity or password that derivation belongs to (so
it can receive a key derived from someone else's credentials); the identity
and password fingerprint are checked only against the completed cache:
once no derivation is pending, a call whose password differs from the
cached fingerprint starts a fresh derivation and obtains the key for its
own password. -/
theorem C2_amended (address pw p1 p2 : String) (dk : Bool)
    (st stShared : CryptoState) (p : PendingDeriv)
    (hne : p1 ≠ p2) (hpend : st.pendingKeyDerivation = none)
    (hsp : stShared.pendingKeyDerivation = some p)
    (hsm : stShared.sessionMasterKey = none) :
    getOrCreateMasterKey (some address) pw dk stShared = deriveBody p stShared ∧
    (getOrCreateMasterKey (some address) p2 true
        ((getOrCreateMasterKey (some address) p1 true st).2)).1 =
      .ok (masterKeyFor address p2) ∧
    ((getOrCreateMasterKey (some address) p2 true
        ((getOrCreateMasterKey (some address) p1 true st).2)).2).kdfInvocations =
      ((getOrCreateMasterKey (some address) p1 true st).2).kdfInvocations + 1 := by
  refine ⟨?_, ?_⟩
  · unfold getOrCreateMasterKey getOrCreateMasterKeyEntry entryOnCacheMiss
    simp only [hsm, hsp]
  · by_cases hcond1 : ∃ k, st.sessionMasterKey = some k ∧
        st.currentWalletAddress = some address ∧
        st.currentPasswordHash = some (hashPassword p1)
    · obtain ⟨k, h1, h2, h3⟩ := hcond1
      rw [getOrCreateMasterKey_hit true h1 h2 h3]
      have hmiss2 : st.sessionMasterKey = none ∨
          ¬(st.currentWalletAddress = some address ∧
            st.currentPasswordHash = some (hashPassword p2)) := by
        right
        rintro ⟨-, hh2⟩
        exact hne (hashPassword_inj (Option.some.inj (h3.symm.trans hh2)))
      exact ⟨getOrCreateMasterKey_miss_ok address p2 hpend hmiss2,
        getOrCreateMasterKey_miss_kdf address p2 hpend hmiss2⟩
    · have hmiss1 : st.sessionMasterKey = none ∨
          ¬(st.currentWalletAddress = some address ∧
            st.currentPasswordHash = some (hashPassword p1)) := by
        cases hsm1 : st.sessionMasterKey with
        | none => exact Or.inl rfl
        | some k =>
          right
          rintro ⟨ha, hh⟩
          exact hcond1 ⟨k, hsm1, ha, hh⟩
      have hstep : getOrCreateMasterKey (some address) p1 true st =
          (.ok (masterKeyFor address p1),
           { st with sessionMasterKey := some (masterKeyFor address p1),
                     currentWalletAddress := some address,
                     currentPasswordHash := some (hashPassword p1),
                     pendingKeyDerivation := none,
                     kdfInvocations := st.kdfInvocations + 1 }) := by
        rw [getOrCreateMasterKey_miss true hpend hmiss1]
        rfl
      rw [hstep]
      have hmiss2 : ∀ st2 : CryptoState,
          st2.currentPasswordHash = some (hashPassword p1) →
          st2.sessionMasterKey = none ∨
          ¬(st2.currentWalletAddress = some address ∧
            st2.currentPasswordHash = some (hashPassword p2)) := by
        intro st2 hh
        right
        rintro ⟨-, hh2⟩
        exact hne (hashPassword_inj (Option.some.inj (hh.symm.trans hh2)))
      exact ⟨getOrCreateMasterKey_miss_ok address p2 rfl (hmiss2 _ rfl),
        getOrCreateMasterKey_miss_kdf address p2 rfl (hmiss2 _ rfl)⟩

/-- Witness for C2 (amended) at concrete states: a pending derivation for
other credentials is shared as-is, and sequential calls with different
passwords each derive their own key. -/
theorem C2_amended_witness :
    getOrCreateMasterKey (some "addr123") "q" true stSharedW =
      deriveBody pendingW stSharedW ∧
    (getOrCreateMasterKey (some "addr123") "P2" true
        ((getOrCreateMasterKey (some "addr123") "P1" true initState).2)).1 =
      .ok (masterKeyFor "addr123" "P2") ∧
    ((getOrCreateMasterKey (some "addr123") "P2" true
        ((getOrCreateMasterKey (some "addr123") "P1" true initState).2)).2).kdfInvocations =
      ((getOrCreateMasterKey (some "addr123") "P1" true initState).2).kdfInvocations + 1 :=
  C2_amended "addr123" "q" "P1" "P2" true initState stSharedW pendingW
    (by decide) rfl rfl rfl

/-- Claim C3: decrypting an envelope with a password different from the one
it was encrypted under fails with the decryption error; and flipping any
single bit of the decoded bytes of its encryptedContent field, or of its
encryptedKey field, makes decryption with the original password fail with
the decryption error as well — never returning altered plaintext. -/
theorem C3_wrong_password_and_tamper
    (addr content p1 p2 : String) (ck civ kiv : List Nat) (st st1 : CryptoState)
    (hcc : CacheConsistent st) (hne : p1 ≠ p2)
    (hck : ck.length = 32) (hckB : ByteOK ck) (hcivB : ByteOK civ)
    (hkiv : kiv.length = 12) (hkivB : ByteOK kiv) (ed : EncryptedData)
    (henc : encryptContent (some addr) content p1 ck civ kiv true st = (.ok ed, st1))
    (i bi j bj : Nat)
    (hi : i < ((base64ToArrayBuffer ed.encryptedContent).getD []).length) (hbi : bi < 8)
    (hj : j < ((base64ToArrayBuffer ed.encryptedKey).getD []).length) (hbj : bj < 8) :
    (decryptContent (some addr) ed p2 true st1).1 = .error .decryptFailed ∧
    (decryptContent (some addr)
        { ed with encryptedContent := tamperField ed.encryptedContent i bi }
        p1 true st1).1 = .error .decryptFailed ∧
    (decryptContent (some addr)
        { ed with encryptedKey := tamperField ed.encryptedKey j bj }
        p1 true st1).1 = .error .decryptFailed := by
  obtain ⟨hed, hcc1⟩ := encryptContent_eq addr content p1 ck civ kiv st hcc henc
  have hmkB : ByteOK (masterKeyFor addr p1) := masterKeyFor_ByteOK addr p1
  have hW : ByteOK (aesGcmEncrypt (masterKeyFor addr p1) kiv ck) :=
    aesGcmEncrypt_ByteOK hmkB hkivB hckB
  have hWB : ByteOK (kiv ++ aesGcmEncrypt (masterKeyFor addr p1) kiv ck) :=
    ByteOK_append hkivB hW
  have hCB : ByteOK (aesGcmEncrypt ck civ (textEncode content)) :=
    aesGcmEncrypt_ByteOK hckB hcivB (textEncode_ByteOK content)
  have hdecC : base64ToArrayBuffer ed.encryptedContent =
      some (aesGcmEncrypt ck civ (textEncode content)) := by
    rw [hed]
    exact base64_roundtrip _ hCB
  have hdecK : base64ToArrayBuffer ed.encryptedKey =
      some (kiv ++ aesGcmEncrypt (masterKeyFor addr p1) kiv ck) := by
    rw [hed]
    exact base64_roundtrip _ hWB
  have hdecIv : base64ToArrayBuffer ed.iv = some civ := by
    rw [hed]
    exact base64_roundtrip _ hcivB
  rw [hdecC] at hi
  rw [hdecK] at hj
  simp only [Option.getD_some] at hi hj
  have htake : (kiv ++ aesGcmEncrypt (masterKeyFor addr p1) kiv ck).take 12 = kiv := by
    rw [← hkiv]
    exact List.take_left kiv _
  have hdrop : (kiv ++ aesGcmEncrypt (masterKeyFor addr p1) kiv ck).drop 12 =
      aesGcmEncrypt (masterKeyFor addr p1) kiv ck := by
    rw [← hkiv]
    exact List.drop_left kiv _
  refine ⟨?_, ?_, ?_⟩
  · -- wrong password
    obtain ⟨stB, hB, -⟩ := getOrCreateMasterKey_ok addr p2 st1 hcc1
    have hnone : aesGcmDecrypt (masterKeyFor addr p2) kiv
        (aesGcmEncrypt (masterKeyFor addr p1) kiv ck) = none := by
      refine aesGcmDecrypt_wrong ?_
      rintro ⟨hk, -⟩
      exact hne (masterKeyFor_pw_inj hk).symm
    unfold decryptContent
    rw [hB]
    dsimp only
    rw [hdecK]
    dsimp only
    rw [htake, hdrop, hnone]
  · -- bit flip in encryptedContent
    obtain ⟨stB, hB, -⟩ := getOrCreateMasterKey_ok addr p1 st1 hcc1
    have hdecC2 : base64ToArrayBuffer (tamperField ed.encryptedContent i bi) =
        some (flipBit (aesGcmEncrypt ck civ (textEncode content)) i bi) := by
      unfold tamperField
      rw [hdecC]
      exact base64_roundtrip _ (flipBit_ByteOK hCB hbi)
    have hnone : aesGcmDecrypt ck civ
        (flipBit (aesGcmEncrypt ck civ (textEncode content)) i bi) = none :=
      aesGcmDecrypt_set_ne ck civ hi (flipBit_getD_ne bi)
    unfold decryptContent
    rw [hB]
    dsimp only
    rw [hdecK]
    dsimp only
    rw [htake, hdrop, aesGcmDecrypt_encrypt]
    dsimp only
    rw [if_pos hck, hdecC2, hdecIv]
    dsimp only
    rw [hnone]
  · -- bit flip in encryptedKey
    obtain ⟨stB, hB, -⟩ := getOrCreateMasterKey_ok addr p1 st1 hcc1
    have hdecK2 : base64ToArrayBuffer (tamperField ed.encryptedKey j bj) =
        some (flipBit (kiv ++ aesGcmEncrypt (masterKeyFor addr p1) kiv ck) j bj) := by
      unfold tamperField
      rw [hdecK]
      exact base64_roundtrip _ (flipBit_ByteOK hWB hbj)
    have hlen : (kiv ++ aesGcmEncrypt (masterKeyFor addr p1) kiv ck).length =
        12 + (aesGcmEncrypt (masterKeyFor addr p1) kiv ck).length := by
      rw [List.length_append, hkiv]
    rcases Nat.lt_or_ge j 12 with hj12 | hj12
    · -- the flip lands in the 12-byte wrap iv
      have hsplit : flipBit (kiv ++ aesGcmEncrypt (masterKeyFor addr p1) kiv ck) j bj =
          kiv.set j ((kiv ++ aesGcmEncrypt (masterKeyFor addr p1) kiv ck).getD j 0 ^^^ 2 ^ bj)
            ++ aesGcmEncrypt (masterKeyFor addr p1) kiv ck := by
        unfold flipBit
        rw [List.set_append, if_pos (by omega)]
      have hlenset : (kiv.set j
          ((kiv ++ aesGcmEncrypt (masterKeyFor addr p1) kiv ck).getD j 0 ^^^ 2 ^ bj)).length
          = 12 := by
        rw [List.length_set, hkiv]
      have htake2 : (kiv.set j
            ((kiv ++ aesGcmEncrypt (masterKeyFor addr p1) kiv ck).getD j 0 ^^^ 2 ^ bj)
          ++ aesGcmEncrypt (masterKeyFor addr p1) kiv ck).take 12 =
          kiv.set j ((kiv ++ aesGcmEncrypt (masterKeyFor addr p1) kiv ck).getD j 0 ^^^ 2 ^ bj)
          := by
        rw [← hlenset]
        exact List.take_left _ _
      have hdrop2 : (kiv.set j
            ((kiv ++ aesGcmEncrypt (masterKeyFor addr p1) kiv ck).getD j 0 ^^^ 2 ^ bj)
          ++ aesGcmEncrypt (masterKeyFor addr p1) kiv ck).drop 12 =
          aesGcmEncrypt (masterKeyFor addr p1) kiv ck := by
        rw [← hlenset]
        exact List.drop_left _ _
      have hgd : (kiv ++ aesGcmEncrypt (masterKeyFor addr p1) kiv ck).getD j 0 =
          kiv.getD j 0 := getD_append_left (by omega)
      have hivne : kiv.set j
          ((kiv ++ aesGcmEncrypt (masterKeyFor addr p1) kiv ck).getD j 0 ^^^ 2 ^ bj) ≠ kiv := by
        refine set_ne_self (by omega) ?_
        rw [hgd]
        exact flipBit_getD_ne bj
      have hnone : aesGcmDecrypt (masterKeyFor addr p1)
          (kiv.set j ((kiv ++ aesGcmEncrypt (masterKeyFor addr p1) kiv ck).getD j 0 ^^^ 2 ^ bj))
          (aesGcmEncrypt (masterKeyFor addr p1) kiv ck) = none := by
        refine aesGcmDecrypt_wrong ?_
        rintro ⟨-, hiv⟩
        exact hivne hiv
      unfold decryptContent
      rw [hB]
      dsimp only
      rw [hdecK2]
      dsimp only
      rw [hsplit, htake2, hdrop2, hnone]
    · -- the flip lands in the wrapped-key ciphertext
      have hsplit : flipBit (kiv ++ aesGcmEncrypt (masterKeyFor addr p1) kiv ck) j bj =
          kiv ++ (aesGcmEncrypt (masterKeyFor addr p1) kiv ck).set (j - 12)
            ((kiv ++ aesGcmEncrypt (masterKeyFor addr p1) kiv ck).getD j 0 ^^^ 2 ^ bj) := by
        unfold flipBit
        rw [List.set_append, if_neg (by omega), hkiv]
      have htake2 : (kiv ++ (aesGcmEncrypt (masterKeyFor addr p1) kiv ck).set (j - 12)
            ((kiv ++ aesGcmEncrypt (masterKeyFor addr p1) kiv ck).getD j 0 ^^^ 2 ^ bj)).take 12
          = kiv := by
        rw [← hkiv]
        exact List.take_left _ _
      have hdrop2 : (kiv ++ (aesGcmEncrypt (masterKeyFor addr p1) kiv ck).set (j - 12)
            ((kiv ++ aesGcmEncrypt (masterKeyFor addr p1) kiv ck).getD j 0 ^^^ 2 ^ bj)).drop 12
          = (aesGcmEncrypt (masterKeyFor addr p1) kiv ck).set (j - 12)
            ((kiv ++ aesGcmEncrypt (masterKeyFor addr p1) kiv ck).getD j 0 ^^^ 2 ^ bj) := by
        rw [← hkiv]
        exact List.drop_left _ _
      have hgd : (kiv ++ aesGcmEncrypt (masterKeyFor addr p1) kiv ck).getD j 0 =
          (aesGcmEncrypt (masterKeyFor addr p1) kiv ck).getD (j - 12) 0 := by
        rw [getD_append_right (by omega) (by omega), hkiv]
      have hnone : aesGcmDecrypt (masterKeyFor addr p1) kiv
          ((aesGcmEncrypt (masterKeyFor addr p1) kiv ck).set (j - 12)
            ((kiv ++ aesGcmEncrypt (masterKeyFor addr p1) kiv ck).getD j 0 ^^^ 2 ^ bj)) =
          none := by
        refine aesGcmDecrypt_set_ne _ _ (by omega) ?_
        rw [hgd]
        exact flipBit_getD_ne bj
      unfold decryptContent
      rw [hB]
      dsimp only
      rw [hdecK2]
      dsimp only
      rw [hsplit, htake2, hdrop2, hnone]

/-- Witness for C3 at concrete inputs: wrong password and a one-bit flip in
each field. -/
theorem C3_witness :
    (decryptContent (some "addr123") edW "wrong-password" true
      (encryptContent (some "addr123") "secret value" "correct-horse"
        ckW civW kivW true initState).2).1 = .error .decryptFailed ∧
    (decryptContent (some "addr123")
        { edW with encryptedContent := tamperField edW.encryptedContent 0 0 }
        "correct-horse" true
        (encryptContent (some "addr123") "secret value" "correct-horse"
          ckW civW kivW true initState).2).1 = .error .decryptFailed ∧
    (decryptContent (some "addr123")
        { edW with encryptedKey := tamperField edW.encryptedKey 0 0 }
        "correct-horse" true
        (encryptContent (some "addr123") "secret value" "correct-horse"
          ckW civW kivW true initState).2).1 = .error .decryptFailed :=
  C3_wrong_password_and_tamper "addr123" "secret value" "correct-horse" "wrong-password"
    ckW civW kivW initState
    (encryptContent (some "addr123") "secret value" "correct-horse"
      ckW civW kivW true initState).2
    CacheConsistent_init (by decide) (by decide) (by decide) (by decide) (by decide)
    (by decide) edW rfl 0 0 0 0 (by decide) (by decide) (by decide) (by decide)

end PocketPrompt
